import Mathlib

/-!
# The S3 pipe of goreleaser (`internal/pipe/s3/s3.go`)

A shallow embedding of `Pipe.Default`, `Pipe.Publish`, `upload` and
`uploadArtifact`, and theorems about them.

Go strings are `String`, a Go `error` is `Option GoError` (`none` is `nil`),
and everything the pipe does to the outside world (submitting a closure to a
`semerrgroup.Group`, opening a file, logging, the S3 PUT) is appended to a
chronological trace of `Event`s that is passed through the code.
-/

namespace S3Pipe

/-! ## Data model -/

/-- A non-nil Go `error` value. `ErrSkip` is the value built by `pipe.Skip`;
every other error (template, I/O, storage) is `other`. -/
inductive GoError where
  | ErrSkip (reason : String)
  | other (msg : String)
deriving DecidableEq, Repr

/-- The eight fields of `config.S3` that `s3.go` reads or writes. -/
structure S3 where
  Region : String := ""
  Bucket : String := ""
  Folder : String := ""
  Profile : String := ""
  Endpoint : String := ""
  ACL : String := ""
  Path : String := ""
  Name : String := ""
deriving DecidableEq, Repr

/-- The fields of `artifact.Artifact` that `s3.go` reads or sets; `Type` is
the Go field `Type`, an integer tag (`artifact.Type`) whose zero value is `0`. -/
structure Artifact where
  Name : String := ""
  Path : String := ""
  Typ : Int := 0
deriving DecidableEq, Repr

/-- The artifact set `ctx.Artifacts`: its items in insertion order. -/
structure Artifacts where
  items : List Artifact
deriving DecidableEq, Repr

/-- The part `ctx.Config` that the pipe uses. -/
structure Project where
  S3 : List S3
deriving DecidableEq, Repr

/-- The fields of `context.Context` that the pipe uses. -/
structure Context where
  Config : Project
  Parallelism : Int
  Artifacts : Artifacts
deriving DecidableEq, Repr

/-! ## `Pipe.Default` -/

/-- The default folder template written in `Default`. -/
def defaultFolder : String := "\x7b\x7b .ProjectName \x7d\x7d/\x7b\x7b .Tag \x7d\x7d"

/-- One iteration of the loop of `Default`, on the element `ctx.Config.S3[i]`. -/
def defaultS3 (s3 : S3) : S3 :=
  if s3.Bucket == "" then s3
  else
    let s3 := if s3.Folder == "" then { s3 with Folder := defaultFolder } else s3
    let s3 := if s3.Region == "" then { s3 with Region := "us-east-1" } else s3
    let s3 := if s3.ACL == "" then { s3 with ACL := "private" } else s3
    s3

/-- The method `Pipe.Default`: the loop updates every element of `ctx.Config.S3` in
place; the returned pair is the error (always `nil`) and the updated context. -/
def Pipe.Default (ctx : Context) : Option GoError × Context :=
  (none, { ctx with Config := { ctx.Config with S3 := ctx.Config.S3.map defaultS3 } })

/-! ## `filepath.Join` and `filepath.Clean` (Go standard library, Unix)

`uploadArtifact` computes the object key with `filepath.Join`. The functions
below follow `path/filepath` for a Unix target (separator `/`, no volume
name). Go strings are byte strings; the separator and the dot are ASCII, so
the byte loop of `Clean` is the same loop over the characters of a string. -/

/-- The Unix `os.IsPathSeparator`. -/
def isPathSeparator (c : Char) : Bool := c == '/'

/-- The inner loop of the `..` case of `Clean`: `for out.w > dotdot &&
!os.IsPathSeparator(out.index(out.w)) { out.w-- }`, from the index `w`;
returns the final `out.w`. -/
def backtrackFrom (out : List Char) (dotdot : Nat) : Nat → Nat
  | 0 => 0
  | w + 1 =>
    if w + 1 > dotdot && !isPathSeparator (out.getD (w + 1) '/') then
      backtrackFrom out dotdot w
    else w + 1

/-- The `..` case of `Clean` when `out.w > dotdot`: `out.w--`, then the inner
loop; the buffer keeps its first `out.w` bytes. -/
def backtrack (out : List Char) (dotdot : Nat) : List Char :=
  out.take (backtrackFrom out dotdot (out.length - 1))

/-- The main loop `for r < n` of `Clean`. `rest` is `path[r:]`, `out` is the
written part `buf[:w]` of the lazy buffer. Every iteration consumes at least
one byte of `rest`, so `fuel = len(path)` iterations always suffice. -/
def cleanLoop (rooted : Bool) : Nat → List Char → List Char → Nat → List Char
  | 0, _, out, _ => out
  | fuel + 1, rest, out, dotdot =>
    match rest with
    | [] => out
    | c :: rest1 =>
      if isPathSeparator c then
        -- empty path element
        cleanLoop rooted fuel rest1 out dotdot
      else if c == '.' && (rest1.isEmpty || isPathSeparator (rest1.headD '/')) then
        -- . element
        cleanLoop rooted fuel rest1 out dotdot
      else if c == '.' && rest1.headD 'x' == '.' &&
          (rest1.tail.isEmpty || isPathSeparator (rest1.tail.headD '/')) then
        -- .. element: remove to last separator
        if out.length > dotdot then
          cleanLoop rooted fuel rest1.tail (backtrack out dotdot) dotdot
        else if !rooted then
          let out1 := if out.length > 0 then out ++ ['/'] else out
          let out2 := out1 ++ ['.', '.']
          cleanLoop rooted fuel rest1.tail out2 out2.length
        else
          cleanLoop rooted fuel rest1.tail out dotdot
      else
        -- real path element: add slash if needed, copy element
        let out1 :=
          if (rooted && out.length != 1) || (!rooted && out.length != 0) then out ++ ['/']
          else out
        cleanLoop rooted fuel (rest.dropWhile (fun x => !isPathSeparator x))
          (out1 ++ rest.takeWhile (fun x => !isPathSeparator x)) dotdot

/-- `filepath.Clean` on the bytes of a path. -/
def cleanChars (path : List Char) : List Char :=
  if path.isEmpty then ['.']
  else
    let rooted := isPathSeparator (path.headD 'x')
    let out :=
      if rooted then cleanLoop true path.length path.tail ['/'] 1
      else cleanLoop false path.length path [] 0
    if out.length == 0 then ['.'] else out

/-- `filepath.Clean`. -/
def filepath.Clean (path : String) : String := String.mk (cleanChars path.data)

/-- `filepath.Join` of two elements: empty leading elements are skipped, the
rest is joined with the separator and cleaned; all empty gives `""`. -/
def filepath.Join (a b : String) : String :=
  if a != "" then filepath.Clean (a ++ "/" ++ b)
  else if b != "" then filepath.Clean b
  else ""

/-- The final path segment of a string: what follows its last separator. -/
def lastSegment (s : String) : String :=
  String.mk (s.data.reverse.takeWhile (fun x => !isPathSeparator x)).reverse

/-! ## The outside world -/

/-- The session builder of the package (`newSessionBuilder`), as the record of
the options set on it. -/
structure SessionBuilder where
  Profile : String := ""
  Endpoint : String := ""
  S3ForcePathStyle : Bool := false
deriving DecidableEq, Repr

/-- The client `svc`: `s3.New(sess, &aws.Config{Region: ...})` over the session
built by the builder. -/
structure S3Client where
  sess : SessionBuilder
  Region : String
deriving DecidableEq, Repr

/-- The argument `s3.PutObjectInput` of the PUT; `Body` is the opened file,
named by its path. -/
structure PutObjectInput where
  Bucket : String
  Key : String
  Body : String
  ACL : String
deriving DecidableEq, Repr

/-- The two closures handed to `Group.Go`, with the variables they capture:
`func() error { return upload(ctx, conf) }` in `Publish`, and the closure of
`uploadArtifact`. -/
inductive Closure where
  | upload (conf : S3)
  | uploadArtifact (svc : S3Client) (artifact : Artifact) (bucket folder acl : String)
deriving DecidableEq, Repr

/-- What the pipe does to the outside world, in the order it happens. -/
inductive Event where
  | go (c : Closure)
  | done (c : Closure) (err : Option GoError)
  | osOpen (path : String)
  | logUploading (bucket folder artifact : String)
  | putObject (svc : S3Client) (input : PutObjectInput)
deriving DecidableEq, Repr

/-- The chronological trace of events. -/
abbrev World := List Event

/-- The collaborators that are not part of the package. `tmplApply ctx s` is
`tmpl.New(ctx).Apply(s)`; `osOpen` and `putObject` give the error (or `nil`) of
`os.Open` and of `svc.PutObjectWithContext`, which may depend on everything that
happened before; the five integers are the `artifact.Type` constants named in
`upload`. -/
structure Env where
  tmplApply : Context → String → Except GoError String
  osOpen : World → String → Option GoError
  putObject : World → S3Client → PutObjectInput → Option GoError
  UploadableArchive : Int
  UploadableBinary : Int
  Checksum : Int
  Signature : Int
  LinuxPackage : Int

/-- Modelled from the spec: `pipe.Skip` of the missing package `internal/pipe`
builds the distinct "skipped" outcome carrying its reason. -/
def pipe.Skip (reason : String) : GoError := GoError.ErrSkip reason

/-! ## The artifact filters -/

/-- Modelled from the spec: `artifact.ByType` of the missing package
`internal/artifact`, the filter that accepts the artifacts with the given type
tag. -/
def artifact.ByType (t : Int) : Artifact → Bool := fun a => a.Typ == t

/-- Modelled from the spec: `artifact.Or` of the missing package
`internal/artifact`, the logical OR of filters. -/
def artifact.Or (filters : List (Artifact → Bool)) : Artifact → Bool :=
  fun a => filters.any (fun f => f a)

/-- Modelled from the spec: `Artifacts.Filter` of the missing package
`internal/artifact` keeps the accepted artifacts, in insertion order. -/
def Artifacts.Filter (artifacts : Artifacts) (filter : Artifact → Bool) : Artifacts :=
  { items := artifacts.items.filter filter }

/-- Modelled from the spec: `Artifacts.List` of the missing package
`internal/artifact` returns the items as a sequence. -/
def Artifacts.List (artifacts : Artifacts) : List Artifact := artifacts.items

/-! ## The task group -/

/-- Modelled from the spec: the `Group` of the missing package
`internal/semerrgroup`. It holds the concurrency ceiling and at most one
recorded error (the first one wins). -/
structure Group where
  size : Int
  err : Option GoError
deriving DecidableEq, Repr

/-- Modelled from the spec: `semerrgroup.New` of the missing package
`internal/semerrgroup` returns a fresh group with no recorded error. -/
def semerrgroup.New (size : Int) : Group := { size := size, err := none }

/-- Modelled from the spec: `Group.Go` of the missing package
`internal/semerrgroup`. The submitted closure is run to completion whatever
was recorded before (no cancellation), and its error is recorded only if no
error was recorded yet. The model fixes one admissible schedule: a closure runs
when it is submitted, so closures run one at a time in submission order. The
trace records the submission and the completion of the closure `c` around the
events of its body `fn`. -/
def Group.Go (g : Group) (c : Closure) (fn : World → Option GoError × World) (w : World) :
    Group × World :=
  let r := fn (w ++ [Event.go c])
  ({ g with err := match g.err with
                   | some e => some e
                   | none => r.1 },
   r.2 ++ [Event.done c r.1])

/-- Modelled from the spec: `Group.Wait` of the missing package
`internal/semerrgroup` returns the recorded error, if any; every submitted
closure has finished by then. -/
def Group.Wait (g : Group) : Option GoError := g.err

/-! ## `uploadArtifact`, `upload` and `Pipe.Publish` -/

/-- The body of the closure that `uploadArtifact` submits. -/
def uploadArtifactBody (env : Env) (svc : S3Client) (artifact : Artifact)
    (bucket folder acl : String) (w : World) : Option GoError × World :=
  let w1 := w ++ [Event.osOpen artifact.Path]
  match env.osOpen w artifact.Path with
  | some err => (some err, w1)
  | none =>
    let w2 := w1 ++ [Event.logUploading bucket folder artifact.Name]
    let input : PutObjectInput :=
      { Bucket := bucket
        Key := filepath.Join folder artifact.Name
        Body := artifact.Path
        ACL := acl }
    (env.putObject w2 svc input, w2 ++ [Event.putObject svc input])

/-- The function `uploadArtifact`: it submits one closure to the group `g`. -/
def uploadArtifact (env : Env) (g : Group) (svc : S3Client) (artifact : Artifact)
    (bucket folder acl : String) (w : World) : Group × World :=
  g.Go (Closure.uploadArtifact svc artifact bucket folder acl)
    (uploadArtifactBody env svc artifact bucket folder acl) w

/-- The client built at the start of `upload`. -/
def newSvc (conf : S3) : S3Client :=
  let builder : SessionBuilder := {}
  let builder := { builder with Profile := conf.Profile }
  let builder :=
    if conf.Endpoint != "" then
      { builder with Endpoint := conf.Endpoint, S3ForcePathStyle := true }
    else builder
  { sess := builder, Region := conf.Region }

/-- The filter built in `upload`. -/
def uploadFilter (env : Env) : Artifact → Bool :=
  artifact.Or
    [ artifact.ByType env.UploadableArchive
    , artifact.ByType env.UploadableBinary
    , artifact.ByType env.Checksum
    , artifact.ByType env.Signature
    , artifact.ByType env.LinuxPackage ]

/-- The function `upload`. -/
def upload (env : Env) (ctx : Context) (conf : S3) (w : World) : Option GoError × World :=
  let svc := newSvc conf
  match env.tmplApply ctx conf.Bucket with
  | Except.error err => (some err, w)
  | Except.ok bucket =>
    match env.tmplApply ctx conf.Folder with
    | Except.error err => (some err, w)
    | Except.ok folder =>
      let g := semerrgroup.New ctx.Parallelism
      if conf.Path != "" then
        let name := if conf.Name == "" then conf.Path else conf.Name
        let r := uploadArtifact env g svc { Name := name, Path := conf.Path }
          bucket folder conf.ACL w
        (r.1.Wait, r.2)
      else
        let r := ((ctx.Artifacts.Filter (uploadFilter env)).List).foldl
          (fun (s : Group × World) artifact =>
            uploadArtifact env s.1 svc artifact bucket folder conf.ACL s.2)
          (g, w)
        (r.1.Wait, r.2)

/-- The method `Pipe.Publish`. -/
def Pipe.Publish (env : Env) (ctx : Context) (w : World) : Option GoError × World :=
  if ctx.Config.S3.length == 0 then
    (some (pipe.Skip "s3 section is not configured"), w)
  else
    let g := semerrgroup.New ctx.Parallelism
    let r := ctx.Config.S3.foldl
      (fun (s : Group × World) conf => s.1.Go (Closure.upload conf) (upload env ctx conf) s.2)
      (g, w)
    (r.1.Wait, r.2)

/-! ## Reading a trace -/

/-- The closures submitted to a task group, in submission order. -/
def submitted (w : World) : List Closure :=
  w.filterMap (fun ev => match ev with
    | Event.go c => some c
    | _ => none)

/-- The closures that ran to completion, each with the error it returned, in
completion order. -/
def finished (w : World) : List (Closure × Option GoError) :=
  w.filterMap (fun ev => match ev with
    | Event.done c err => some (c, err)
    | _ => none)

/-- The paths given to `os.Open`, in order. -/
def opened (w : World) : List String :=
  w.filterMap (fun ev => match ev with
    | Event.osOpen path => some path
    | _ => none)

/-- The PUT requests issued, in order. -/
def puts (w : World) : List (S3Client × PutObjectInput) :=
  w.filterMap (fun ev => match ev with
    | Event.putObject svc input => some (svc, input)
    | _ => none)

/-- Whether a closure is the one of `uploadArtifact`. -/
def Closure.isArtifact : Closure → Bool
  | Closure.uploadArtifact _ _ _ _ _ => true
  | Closure.upload _ => false

/-- The artifact closures submitted, in submission order. -/
def artifactSubmitted (w : World) : List Closure :=
  (submitted w).filter Closure.isArtifact

/-- The artifact closures that ran to completion, with their errors. -/
def artifactFinished (w : World) : List (Closure × Option GoError) :=
  (finished w).filter (fun p => p.1.isArtifact)

/-- The artifact tasks of one destination whose templates resolve: the explicit
file when a path is configured, else the artifacts with one of the five
uploadable types, in insertion order. Used to state what `upload` and `Publish`
submit. -/
def expectedTasks (env : Env) (ctx : Context) (conf : S3) : List Closure :=
  match env.tmplApply ctx conf.Bucket, env.tmplApply ctx conf.Folder with
  | Except.ok bucket, Except.ok folder =>
    if conf.Path = "" then
      (ctx.Artifacts.items.filter (fun a =>
          decide (a.Typ = env.UploadableArchive ∨ a.Typ = env.UploadableBinary ∨
            a.Typ = env.Checksum ∨ a.Typ = env.Signature ∨ a.Typ = env.LinuxPackage))).map
        (fun a => Closure.uploadArtifact (newSvc conf) a bucket folder conf.ACL)
    else
      [Closure.uploadArtifact (newSvc conf)
        { Name := if conf.Name = "" then conf.Path else conf.Name, Path := conf.Path }
        bucket folder conf.ACL]
  | _, _ => []

/-- The artifact tasks of a list of destinations, destination after
destination. -/
def allTasks (env : Env) (ctx : Context) : List S3 → List Closure
  | [] => []
  | conf :: confs => expectedTasks env ctx conf ++ allTasks env ctx confs

/-- A real path element: not empty, without separator, and neither `.` nor `..`. -/
def realElem (s : List Char) : Prop :=
  s ≠ [] ∧ (∀ c ∈ s, c ≠ '/') ∧ s ≠ ['.'] ∧ s ≠ ['.', '.']

instance : DecidablePred realElem := fun s => by
  unfold realElem
  infer_instance

/-- The path elements of a string: the pieces between its separators. -/
def elements : List Char → List (List Char)
  | [] => [[]]
  | c :: cs =>
    if c = '/' then [] :: elements cs
    else (c :: (elements cs).headD []) :: (elements cs).tail

/-- A relative path in clean form: every path element is a real one. -/
def cleanRelative (p : String) : Prop := ∀ s ∈ elements p.data, realElem s

instance : DecidablePred cleanRelative := fun p => by
  unfold cleanRelative
  infer_instance

/-- A string is empty or ends with a separator. -/
def EndsSep (pre : List Char) : Prop := pre = [] ∨ ∃ pre0, pre = pre0 ++ ['/']

/-- The invariant of the buffer of `Clean` on a rooted path: it is empty or
starts with the separator. -/
def RootInv (r : Bool) (out : List Char) : Prop :=
  r = true → ∀ x, out.head? = some x → x = '/'

/-- Sample inputs of `filepath.Clean` with the results of the Go
implementation. -/
def cleantests : List (String × String) :=
  [ ("abc", "abc"), ("abc/def", "abc/def"), ("a/b/c", "a/b/c"), (".", "."), ("..", ".."),
    ("../..", "../.."), ("../../abc", "../../abc"), ("/abc", "/abc"), ("/", "/"), ("", "."),
    ("abc/", "abc"), ("abc/def/", "abc/def"), ("a/b/c/", "a/b/c"), ("./", "."), ("../", ".."),
    ("../../", "../.."), ("/abc/", "/abc"), ("abc//def//ghi", "abc/def/ghi"), ("//abc", "/abc"),
    ("///abc", "/abc"), ("//abc//", "/abc"), ("abc//", "abc"), ("abc/./def", "abc/def"),
    ("/./abc/def", "/abc/def"), ("abc/.", "abc"), ("abc/def/ghi/../jkl", "abc/def/jkl"),
    ("abc/def/../ghi/../jkl", "abc/jkl"), ("abc/def/..", "abc"), ("abc/def/../..", "."),
    ("/abc/def/../..", "/"), ("abc/def/../../..", ".."), ("/abc/def/../../..", "/"),
    ("abc/def/../../../ghi/jkl/../../../mno", "../../mno"), ("/../abc", "/abc"),
    ("abc/./../def", "def"), ("abc//./../def", "def"), ("abc/../../././../def", "../../def") ]

/-- Sample inputs of `filepath.Join` with the results of the Go
implementation. -/
def jointests : List (String × String × String) :=
  [ ("a", "b", "a/b"), ("a", "", "a"), ("", "b", "b"), ("/", "a", "/a"), ("/", "a/b", "/a/b"),
    ("/", "", "/"), ("//", "a", "/a"), ("/a", "b", "/a/b"), ("a/", "b", "a/b"), ("a/", "", "a"),
    ("", "", "") ]

/-! ## A concrete run -/

/-- A sample environment: templates resolve to themselves, except the default
folder template, which resolves for project `demo` at tag `v1.0.0`, and the
template with the unknown field `.Nope`, which fails; every file opens except
`dist/missing.sig`; every PUT succeeds. -/
def demoEnv : Env :=
  { tmplApply := fun _ s =>
      if s = "\x7b\x7b .Nope \x7d\x7d" then Except.error (GoError.other "template: no field Nope")
      else if s = defaultFolder then Except.ok "demo/v1.0.0"
      else Except.ok s
    osOpen := fun _ path =>
      if path = "dist/missing.sig" then some (GoError.other "open dist/missing.sig: no such file")
      else none
    putObject := fun _ _ _ => none
    UploadableArchive := 0
    UploadableBinary := 1
    Checksum := 7
    Signature := 8
    LinuxPackage := 3 }

/-- Five archives and two artifacts of another type. -/
def demoArtifacts : Artifacts :=
  { items :=
      [ { Name := "a1.tar.gz", Path := "dist/a1.tar.gz", Typ := 0 }
      , { Name := "src1", Path := "dist/src1", Typ := 2 }
      , { Name := "a2.tar.gz", Path := "dist/a2.tar.gz", Typ := 0 }
      , { Name := "a3.tar.gz", Path := "dist/a3.tar.gz", Typ := 0 }
      , { Name := "src2", Path := "dist/src2", Typ := 2 }
      , { Name := "a4.tar.gz", Path := "dist/a4.tar.gz", Typ := 0 }
      , { Name := "a5.tar.gz", Path := "dist/a5.tar.gz", Typ := 0 } ] }

/-- A destination without explicit path, with the default folder. -/
def demoConf : S3 :=
  { Bucket := "releases", Folder := defaultFolder, Region := "us-east-1", ACL := "private" }

/-- A destination with an explicit path inside a directory and no name
override. -/
def demoPathConf : S3 :=
  { Bucket := "releases", Folder := "files", Region := "us-east-1", ACL := "private"
    Path := "dist/app.tar.gz" }

/-- A destination with an explicit path that is a single element. -/
def demoFileConf : S3 :=
  { Bucket := "releases", Folder := "files/", Region := "us-east-1", ACL := "private"
    Path := "checksums.txt" }

/-- A destination whose explicit file cannot be opened. -/
def demoMissingConf : S3 :=
  { Bucket := "releases", Folder := "sigs", Region := "us-east-1", ACL := "private"
    Path := "dist/missing.sig", Name := "app.sig" }

/-- A destination whose bucket template does not resolve. -/
def demoBadConf : S3 :=
  { Bucket := "\x7b\x7b .Nope \x7d\x7d", Folder := "\x7b\x7b .Nope \x7d\x7d" }

/-- A context with three destinations, one of which has a failing task. -/
def demoCtx : Context :=
  { Config := { S3 := [demoConf, demoMissingConf, demoFileConf] }
    Parallelism := 4
    Artifacts := demoArtifacts }

/-- A context with no destination. -/
def demoEmptyCtx : Context :=
  { Config := { S3 := [] }
    Parallelism := 4
    Artifacts := demoArtifacts }

/-- A configuration before defaulting: one destination to fill, one without
bucket, one already set. -/
def demoRawCtx : Context :=
  { Config := { S3 := [ { Bucket := "releases" }
                      , { Folder := "", Region := "", ACL := "" }
                      , { Bucket := "b", Folder := "f", Region := "eu-west-1", ACL := "public-read" } ] }
    Parallelism := 4
    Artifacts := demoArtifacts }

/-! ## Theorems about `Pipe.Default` -/

theorem defaultS3_of_bucket_empty (s : S3) (h : s.Bucket = "") : defaultS3 s = s := by
  simp [defaultS3, h]

theorem defaultS3_frame (s : S3) :
    (defaultS3 s).Bucket = s.Bucket ∧ (defaultS3 s).Profile = s.Profile ∧
    (defaultS3 s).Endpoint = s.Endpoint ∧ (defaultS3 s).Path = s.Path ∧
    (defaultS3 s).Name = s.Name := by
  unfold defaultS3
  split
  · simp
  · dsimp only
    split <;> split <;> split <;> simp

theorem defaultS3_keeps (s : S3) :
    (s.Folder ≠ "" → (defaultS3 s).Folder = s.Folder) ∧
    (s.Region ≠ "" → (defaultS3 s).Region = s.Region) ∧
    (s.ACL ≠ "" → (defaultS3 s).ACL = s.ACL) := by
  unfold defaultS3
  split
  · simp
  · dsimp only
    split <;> split <;> split <;> simp_all

theorem defaultS3_fills (s : S3) (h : s.Bucket ≠ "") :
    (s.Folder = "" → (defaultS3 s).Folder = defaultFolder) ∧
    (s.Region = "" → (defaultS3 s).Region = "us-east-1") ∧
    (s.ACL = "" → (defaultS3 s).ACL = "private") := by
  unfold defaultS3
  split
  · simp_all
  · dsimp only
    split <;> split <;> split <;> simp_all

/-- C8: `Default` returns no error, and every destination with a non-empty
bucket gets the default folder template (the Go template for project name,
slash, tag), the region `us-east-1` and the ACL `private` in place of an empty
folder, region and ACL. -/
theorem default_fills_empty_fields (ctx : Context) :
    (Pipe.Default ctx).1 = none ∧
    defaultFolder = "\x7b\x7b .ProjectName \x7d\x7d/\x7b\x7b .Tag \x7d\x7d" ∧
    ∀ (i : Nat) (s : S3), ctx.Config.S3[i]? = some s → s.Bucket ≠ "" →
      ∃ s1, (Pipe.Default ctx).2.Config.S3[i]? = some s1 ∧
        s1.Bucket ≠ "" ∧
        (s.Folder = "" → s1.Folder = defaultFolder) ∧
        (s.Region = "" → s1.Region = "us-east-1") ∧
        (s.ACL = "" → s1.ACL = "private") := by
  refine ⟨rfl, rfl, ?_⟩
  intro i s hi hb
  refine ⟨defaultS3 s, ?_, ?_, defaultS3_fills s hb⟩
  · simp [Pipe.Default, List.getElem?_map, hi]
  · rw [(defaultS3_frame s).1]; exact hb

/-- C10: `Default` keeps the number and order of destinations, leaves a
destination with an empty bucket unchanged, keeps every non-empty folder,
region and ACL, never changes bucket, profile, endpoint, path or name, and
changes nothing else in the context. -/
theorem default_frame (ctx : Context) :
    (Pipe.Default ctx).2.Config.S3.length = ctx.Config.S3.length ∧
    (Pipe.Default ctx).2.Parallelism = ctx.Parallelism ∧
    (Pipe.Default ctx).2.Artifacts = ctx.Artifacts ∧
    ∀ (i : Nat) (s : S3), ctx.Config.S3[i]? = some s →
      ∃ s1, (Pipe.Default ctx).2.Config.S3[i]? = some s1 ∧
        (s.Bucket = "" → s1 = s) ∧
        (s.Folder ≠ "" → s1.Folder = s.Folder) ∧
        (s.Region ≠ "" → s1.Region = s.Region) ∧
        (s.ACL ≠ "" → s1.ACL = s.ACL) ∧
        s1.Bucket = s.Bucket ∧ s1.Profile = s.Profile ∧ s1.Endpoint = s.Endpoint ∧
        s1.Path = s.Path ∧ s1.Name = s.Name := by
  refine ⟨by simp [Pipe.Default], rfl, rfl, ?_⟩
  intro i s hi
  refine ⟨defaultS3 s, ?_, defaultS3_of_bucket_empty s, (defaultS3_keeps s).1,
    (defaultS3_keeps s).2.1, (defaultS3_keeps s).2.2, defaultS3_frame s⟩
  simp [Pipe.Default, List.getElem?_map, hi]

/-! ## Theorems about `Pipe.Publish` and `upload` -/

/-- C1: with no destination configured, `Publish` returns the skipped outcome
`pipe.Skip "s3 section is not configured"`, which is not `nil`, and the trace is
left as it was: nothing is submitted, opened or PUT. -/
theorem publish_skips_without_destinations (env : Env) (ctx : Context) (w : World)
    (h : ctx.Config.S3 = []) :
    (Pipe.Publish env ctx w).1 = some (GoError.ErrSkip "s3 section is not configured") ∧
    (Pipe.Publish env ctx w).1 ≠ none ∧
    (Pipe.Publish env ctx w).2 = w ∧
    submitted (Pipe.Publish env ctx w).2 = submitted w ∧
    opened (Pipe.Publish env ctx w).2 = opened w ∧
    puts (Pipe.Publish env ctx w).2 = puts w := by
  simp [Pipe.Publish, h, pipe.Skip]

/-- C5: when the bucket template fails, `upload` returns that error, and when
the bucket resolves and the folder template fails, `upload` returns the folder
error; in both cases the trace is left as it was, so nothing is submitted,
opened or PUT for the destination. -/
theorem upload_aborts_on_template_error (env : Env) (ctx : Context) (conf : S3) (w : World) :
    (∀ e, env.tmplApply ctx conf.Bucket = Except.error e →
      upload env ctx conf w = (some e, w)) ∧
    (∀ b e, env.tmplApply ctx conf.Bucket = Except.ok b →
      env.tmplApply ctx conf.Folder = Except.error e →
      upload env ctx conf w = (some e, w)) := by
  constructor
  · intro e h
    simp [upload, h]
  · intro b e hb hf
    simp [upload, hb, hf]

/-! ### One artifact task -/

theorem submitted_append (w v : World) : submitted (w ++ v) = submitted w ++ submitted v := by
  simp [submitted]

theorem finished_append (w v : World) : finished (w ++ v) = finished w ++ finished v := by
  simp [finished]

theorem opened_append (w v : World) : opened (w ++ v) = opened w ++ opened v := by
  simp [opened]

theorem puts_append (w v : World) : puts (w ++ v) = puts w ++ puts v := by
  simp [puts]

/-- The body of an artifact task submits nothing and completes nothing itself. -/
theorem body_trace (env : Env) (svc : S3Client) (a : Artifact) (b f acl : String) (w : World) :
    submitted (uploadArtifactBody env svc a b f acl w).2 = submitted w ∧
    finished (uploadArtifactBody env svc a b f acl w).2 = finished w ∧
    opened (uploadArtifactBody env svc a b f acl w).2 = opened w ++ [a.Path] := by
  unfold uploadArtifactBody
  cases env.osOpen w a.Path <;>
    simp [submitted_append, finished_append, opened_append, submitted, finished, opened]

/-- The PUT of the body of an artifact task: none when the file cannot be
opened, else one, with the joined key. -/
theorem body_puts (env : Env) (svc : S3Client) (a : Artifact) (b f acl : String) (w : World) :
    puts (uploadArtifactBody env svc a b f acl w).2 = puts w ++
      (if env.osOpen w a.Path = none then
        [(svc, { Bucket := b, Key := filepath.Join f a.Name, Body := a.Path, ACL := acl })]
      else []) := by
  unfold uploadArtifactBody
  cases env.osOpen w a.Path <;> simp [puts_append, puts]

/-- What one call of `uploadArtifact` adds to the trace and to the group. -/
theorem uploadArtifact_trace (env : Env) (g : Group) (svc : S3Client) (a : Artifact)
    (b f acl : String) (w : World) :
    ∃ r : Option GoError,
      submitted (uploadArtifact env g svc a b f acl w).2 =
        submitted w ++ [Closure.uploadArtifact svc a b f acl] ∧
      finished (uploadArtifact env g svc a b f acl w).2 =
        finished w ++ [(Closure.uploadArtifact svc a b f acl, r)] ∧
      opened (uploadArtifact env g svc a b f acl w).2 = opened w ++ [a.Path] ∧
      (uploadArtifact env g svc a b f acl w).1.err = (g.err <|> r) ∧
      (uploadArtifact env g svc a b f acl w).1.size = g.size := by
  refine ⟨(uploadArtifactBody env svc a b f acl
    (w ++ [Event.go (Closure.uploadArtifact svc a b f acl)])).1, ?_⟩
  have hb := body_trace env svc a b f acl (w ++ [Event.go (Closure.uploadArtifact svc a b f acl)])
  obtain ⟨h1, h2, h3⟩ := hb
  refine ⟨?_, ?_, ?_, ?_, rfl⟩
  · simp only [uploadArtifact, Group.Go, submitted_append, h1]
    simp [submitted]
  · simp only [uploadArtifact, Group.Go, finished_append, h2]
    simp [finished]
  · simp only [uploadArtifact, Group.Go, opened_append, h3]
    simp [opened]
  · simp only [uploadArtifact, Group.Go]
    cases g.err <;> rfl

/-- The first error of a list of task outcomes. -/
theorem foldl_orElse_none (rs : List (Option GoError)) (h : ∀ r ∈ rs, r = none)
    (e : Option GoError) : rs.foldl (fun acc r => acc <|> r) e = e := by
  induction rs generalizing e with
  | nil => rfl
  | cons r rs ih =>
    have hr : r = none := h r (by simp)
    subst hr
    simp only [List.foldl_cons]
    rw [ih (fun r hr => h r (by simp [hr]))]
    cases e <;> rfl

theorem foldl_orElse_some (rs : List (Option GoError)) (e : GoError) :
    rs.foldl (fun acc r => acc <|> r) (some e) = some e := by
  induction rs with
  | nil => rfl
  | cons r rs ih => simpa using ih

/-- The submission loop of `upload` over a list of artifacts. -/
theorem upload_loop (env : Env) (svc : S3Client) (b f acl : String) (as : List Artifact)
    (g : Group) (w : World) :
    ∃ rs : List (Option GoError), rs.length = as.length ∧
      submitted (as.foldl (fun (s : Group × World) a =>
        uploadArtifact env s.1 svc a b f acl s.2) (g, w)).2 =
        submitted w ++ as.map (fun a => Closure.uploadArtifact svc a b f acl) ∧
      finished (as.foldl (fun (s : Group × World) a =>
        uploadArtifact env s.1 svc a b f acl s.2) (g, w)).2 =
        finished w ++ (as.map (fun a => Closure.uploadArtifact svc a b f acl)).zip rs ∧
      opened (as.foldl (fun (s : Group × World) a =>
        uploadArtifact env s.1 svc a b f acl s.2) (g, w)).2 =
        opened w ++ as.map (fun a => a.Path) ∧
      (as.foldl (fun (s : Group × World) a =>
        uploadArtifact env s.1 svc a b f acl s.2) (g, w)).1.err =
        rs.foldl (fun acc r => acc <|> r) g.err := by
  induction as generalizing g w with
  | nil => exact ⟨[], rfl, by simp, by simp, by simp, rfl⟩
  | cons a as ih =>
    obtain ⟨r, h1, h2, h3, h4, _⟩ := uploadArtifact_trace env g svc a b f acl w
    obtain ⟨rs, hl, k1, k2, k3, k4⟩ := ih (uploadArtifact env g svc a b f acl w).1
      (uploadArtifact env g svc a b f acl w).2
    refine ⟨r :: rs, by simp [hl], ?_, ?_, ?_, ?_⟩
    · simp only [List.foldl_cons, k1, h1]; simp
    · simp only [List.foldl_cons, k2, h2]; simp
    · simp only [List.foldl_cons, k3, h3]; simp
    · simp only [List.foldl_cons, k4, h4]

/-! ### One destination -/

theorem uploadFilter_eq (env : Env) (a : Artifact) :
    uploadFilter env a = decide (a.Typ = env.UploadableArchive ∨ a.Typ = env.UploadableBinary ∨
      a.Typ = env.Checksum ∨ a.Typ = env.Signature ∨ a.Typ = env.LinuxPackage) := by
  rw [Bool.eq_iff_iff]
  simp [uploadFilter, artifact.Or, artifact.ByType]

theorem filtered_list (env : Env) (ctx : Context) :
    (ctx.Artifacts.Filter (uploadFilter env)).List =
      ctx.Artifacts.items.filter (fun a =>
        decide (a.Typ = env.UploadableArchive ∨ a.Typ = env.UploadableBinary ∨
          a.Typ = env.Checksum ∨ a.Typ = env.Signature ∨ a.Typ = env.LinuxPackage)) := by
  simp only [Artifacts.Filter, Artifacts.List]
  congr 1
  funext a
  exact uploadFilter_eq env a

/-- What `upload` does for a destination whose templates resolve: it submits
the expected tasks, all of them run to completion, and it returns the first
error among their outcomes. -/
theorem upload_trace (env : Env) (ctx : Context) (conf : S3) (w : World) (b f : String)
    (hb : env.tmplApply ctx conf.Bucket = Except.ok b)
    (hf : env.tmplApply ctx conf.Folder = Except.ok f) :
    ∃ rs : List (Option GoError), rs.length = (expectedTasks env ctx conf).length ∧
      submitted (upload env ctx conf w).2 = submitted w ++ expectedTasks env ctx conf ∧
      finished (upload env ctx conf w).2 =
        finished w ++ (expectedTasks env ctx conf).zip rs ∧
      (upload env ctx conf w).1 = rs.foldl (fun acc r => acc <|> r) none := by
  by_cases hp : conf.Path = ""
  · obtain ⟨rs, hl, k1, k2, _, k4⟩ := upload_loop env (newSvc conf) b f conf.ACL
      (ctx.Artifacts.items.filter (fun a =>
        decide (a.Typ = env.UploadableArchive ∨ a.Typ = env.UploadableBinary ∨
          a.Typ = env.Checksum ∨ a.Typ = env.Signature ∨ a.Typ = env.LinuxPackage)))
      (semerrgroup.New ctx.Parallelism) w
    refine ⟨rs, ?_, ?_, ?_, ?_⟩
    · simp [expectedTasks, hb, hf, hp, hl]
    · simp only [upload, hb, hf, hp, filtered_list, expectedTasks]
      simpa using k1
    · simp only [upload, hb, hf, hp, filtered_list, expectedTasks]
      simpa using k2
    · simp only [upload, hb, hf, hp, filtered_list, Group.Wait]
      simpa [semerrgroup.New] using k4
  · obtain ⟨r, h1, h2, _, h4, _⟩ := uploadArtifact_trace env (semerrgroup.New ctx.Parallelism)
      (newSvc conf) { Name := if conf.Name = "" then conf.Path else conf.Name, Path := conf.Path }
      b f conf.ACL w
    refine ⟨[r], ?_, ?_, ?_, ?_⟩
    · simp [expectedTasks, hb, hf, hp]
    · simp only [upload, hb, hf, expectedTasks]
      simpa [hp] using h1
    · simp only [upload, hb, hf, expectedTasks]
      simpa [hp] using h2
    · simp only [upload, hb, hf, Group.Wait]
      simpa [hp, semerrgroup.New] using h4

/-- C3: for a destination without explicit path whose templates resolve, the
tasks that `upload` submits are, in insertion order, one per artifact whose type
is one of the five uploadable types, carrying that artifact, and no other task;
the files opened are the paths of those artifacts. -/
theorem upload_submits_filtered_artifacts (env : Env) (ctx : Context) (conf : S3) (w : World)
    (b f : String) (hp : conf.Path = "")
    (hb : env.tmplApply ctx conf.Bucket = Except.ok b)
    (hf : env.tmplApply ctx conf.Folder = Except.ok f) :
    submitted (upload env ctx conf w).2 = submitted w ++
      (ctx.Artifacts.items.filter (fun a =>
        decide (a.Typ = env.UploadableArchive ∨ a.Typ = env.UploadableBinary ∨
          a.Typ = env.Checksum ∨ a.Typ = env.Signature ∨ a.Typ = env.LinuxPackage))).map
        (fun a => Closure.uploadArtifact (newSvc conf) a b f conf.ACL) ∧
    opened (upload env ctx conf w).2 = opened w ++
      (ctx.Artifacts.items.filter (fun a =>
        decide (a.Typ = env.UploadableArchive ∨ a.Typ = env.UploadableBinary ∨
          a.Typ = env.Checksum ∨ a.Typ = env.Signature ∨ a.Typ = env.LinuxPackage))).map
        (fun a => a.Path) := by
  obtain ⟨rs, _, k1, _, k3, _⟩ := upload_loop env (newSvc conf) b f conf.ACL
    (ctx.Artifacts.items.filter (fun a =>
      decide (a.Typ = env.UploadableArchive ∨ a.Typ = env.UploadableBinary ∨
        a.Typ = env.Checksum ∨ a.Typ = env.Signature ∨ a.Typ = env.LinuxPackage)))
    (semerrgroup.New ctx.Parallelism) w
  constructor
  · simp only [upload, hb, hf, hp, filtered_list]
    simpa using k1
  · simp only [upload, hb, hf, hp, filtered_list]
    simpa using k3

/-- C4: for a destination with a non-empty explicit path whose templates
resolve, `upload` submits exactly one task whatever the artifact set holds: the
artifact with the configured path, named by the name override when there is one
and by the path otherwise; the one file opened is that path. -/
theorem upload_explicit_path_single_task (env : Env) (ctx : Context) (conf : S3) (w : World)
    (b f : String) (hp : conf.Path ≠ "")
    (hb : env.tmplApply ctx conf.Bucket = Except.ok b)
    (hf : env.tmplApply ctx conf.Folder = Except.ok f) :
    submitted (upload env ctx conf w).2 = submitted w ++
      [Closure.uploadArtifact (newSvc conf)
        { Name := if conf.Name = "" then conf.Path else conf.Name, Path := conf.Path }
        b f conf.ACL] ∧
    opened (upload env ctx conf w).2 = opened w ++ [conf.Path] := by
  obtain ⟨r, h1, _, h3, _, _⟩ := uploadArtifact_trace env (semerrgroup.New ctx.Parallelism)
    (newSvc conf) { Name := if conf.Name = "" then conf.Path else conf.Name, Path := conf.Path }
    b f conf.ACL w
  constructor
  · simp only [upload, hb, hf]
    simpa [hp] using h1
  · simp only [upload, hb, hf]
    simpa [hp] using h3

/-! ### All destinations -/

theorem expectedTasks_isArtifact (env : Env) (ctx : Context) (conf : S3) :
    ∀ c ∈ expectedTasks env ctx conf, c.isArtifact = true := by
  intro c hc
  unfold expectedTasks at hc
  split at hc
  · split at hc
    · simp only [List.mem_map] at hc
      obtain ⟨a, _, rfl⟩ := hc
      rfl
    · simp only [List.mem_singleton] at hc
      subst hc
      rfl
  · simp at hc

theorem filter_zip_isArtifact (cs : List Closure) (rs : List (Option GoError))
    (h : ∀ c ∈ cs, c.isArtifact = true) :
    (cs.zip rs).filter (fun p => p.1.isArtifact) = cs.zip rs := by
  apply List.filter_eq_self.2
  intro p hp
  exact h p.1 (List.of_mem_zip (a := p.1) (b := p.2) hp).1

theorem orElse_foldl (rs : List (Option GoError)) (e : Option GoError) :
    (e <|> rs.foldl (fun acc r => acc <|> r) none) = rs.foldl (fun acc r => acc <|> r) e := by
  cases e with
  | none => simp
  | some x => simp [foldl_orElse_some]

/-- One iteration of the loop of `Publish`, for a destination whose templates
resolve. -/
theorem publish_step (env : Env) (ctx : Context) (conf : S3) (g : Group) (w : World)
    (hres : ∃ b f, env.tmplApply ctx conf.Bucket = Except.ok b ∧
      env.tmplApply ctx conf.Folder = Except.ok f) :
    ∃ rs : List (Option GoError), rs.length = (expectedTasks env ctx conf).length ∧
      artifactSubmitted (g.Go (Closure.upload conf) (upload env ctx conf) w).2 =
        artifactSubmitted w ++ expectedTasks env ctx conf ∧
      artifactFinished (g.Go (Closure.upload conf) (upload env ctx conf) w).2 =
        artifactFinished w ++ (expectedTasks env ctx conf).zip rs ∧
      (submitted (g.Go (Closure.upload conf) (upload env ctx conf) w).2).filter
          (fun c => !c.isArtifact) =
        (submitted w).filter (fun c => !c.isArtifact) ++ [Closure.upload conf] ∧
      (g.Go (Closure.upload conf) (upload env ctx conf) w).1.err =
        rs.foldl (fun acc r => acc <|> r) g.err := by
  obtain ⟨b, f, hb, hf⟩ := hres
  obtain ⟨rs, hl, k1, k2, k4⟩ := upload_trace env ctx conf
    (w ++ [Event.go (Closure.upload conf)]) b f hb hf
  have hart := expectedTasks_isArtifact env ctx conf
  have hfilt : (expectedTasks env ctx conf).filter Closure.isArtifact =
      expectedTasks env ctx conf := List.filter_eq_self.2 hart
  have hnone : (expectedTasks env ctx conf).filter (fun c => !c.isArtifact) = [] := by
    apply List.filter_eq_nil_iff.2
    intro c hc
    simp [hart c hc]
  refine ⟨rs, hl, ?_, ?_, ?_, ?_⟩
  · simp only [artifactSubmitted, Group.Go, submitted_append, k1, List.filter_append, hfilt]
    simp [submitted, Closure.isArtifact]
  · simp only [artifactFinished, Group.Go, finished_append, k2, List.filter_append,
      filter_zip_isArtifact _ rs hart]
    simp [finished, Closure.isArtifact]
  · simp only [Group.Go, submitted_append, k1, List.filter_append, hnone]
    simp [submitted, Closure.isArtifact]
  · simp only [Group.Go, k4]
    rw [← orElse_foldl rs g.err]
    cases g.err <;> simp

/-- The loop of `Publish` over destinations whose templates resolve. -/
theorem publish_loop (env : Env) (ctx : Context) (confs : List S3)
    (hres : ∀ conf ∈ confs, ∃ b f, env.tmplApply ctx conf.Bucket = Except.ok b ∧
      env.tmplApply ctx conf.Folder = Except.ok f) (g : Group) (w : World) :
    ∃ rs : List (Option GoError), rs.length = (allTasks env ctx confs).length ∧
      artifactSubmitted (confs.foldl (fun (s : Group × World) conf =>
          s.1.Go (Closure.upload conf) (upload env ctx conf) s.2) (g, w)).2 =
        artifactSubmitted w ++ allTasks env ctx confs ∧
      artifactFinished (confs.foldl (fun (s : Group × World) conf =>
          s.1.Go (Closure.upload conf) (upload env ctx conf) s.2) (g, w)).2 =
        artifactFinished w ++ (allTasks env ctx confs).zip rs ∧
      (submitted (confs.foldl (fun (s : Group × World) conf =>
          s.1.Go (Closure.upload conf) (upload env ctx conf) s.2) (g, w)).2).filter
          (fun c => !c.isArtifact) =
        (submitted w).filter (fun c => !c.isArtifact) ++ confs.map Closure.upload ∧
      (confs.foldl (fun (s : Group × World) conf =>
          s.1.Go (Closure.upload conf) (upload env ctx conf) s.2) (g, w)).1.err =
        rs.foldl (fun acc r => acc <|> r) g.err := by
  induction confs generalizing g w with
  | nil => exact ⟨[], rfl, by simp [allTasks], by simp [allTasks], by simp, rfl⟩
  | cons conf confs ih =>
    obtain ⟨rs1, hl1, h1, h2, h3, h4⟩ := publish_step env ctx conf g w
      (hres conf (by simp))
    obtain ⟨rs2, hl2, k1, k2, k3, k4⟩ := ih (fun c hc => hres c (by simp [hc]))
      (g.Go (Closure.upload conf) (upload env ctx conf) w).1
      (g.Go (Closure.upload conf) (upload env ctx conf) w).2
    refine ⟨rs1 ++ rs2, by simp [allTasks, hl1, hl2], ?_, ?_, ?_, ?_⟩
    · simp only [List.foldl_cons, k1, h1, allTasks, List.append_assoc]
    · simp only [List.foldl_cons, k2, h2, allTasks, List.append_assoc]
      rw [List.zip_append hl1.symm]
    · simp only [List.foldl_cons, k3, h3, List.map_cons, List.append_assoc]
      simp
    · simp only [List.foldl_cons, k4, h4, List.foldl_append]

/-- C2: for a non-empty list of destinations whose templates all resolve,
`Publish` submits every destination and every artifact task of every
destination, and all of them run to completion, with outcomes `rs`; if all
outcomes are successes `Publish` returns no error; and if exactly one outcome
is an error, `Publish` returns exactly that error, the other tasks having been
submitted and completed all the same. -/
theorem publish_join_result (env : Env) (ctx : Context) (w : World)
    (hne : ctx.Config.S3 ≠ [])
    (hres : ∀ conf ∈ ctx.Config.S3, ∃ b f, env.tmplApply ctx conf.Bucket = Except.ok b ∧
      env.tmplApply ctx conf.Folder = Except.ok f) :
    ∃ rs : List (Option GoError),
      rs.length = (allTasks env ctx ctx.Config.S3).length ∧
      artifactSubmitted (Pipe.Publish env ctx w).2 =
        artifactSubmitted w ++ allTasks env ctx ctx.Config.S3 ∧
      artifactFinished (Pipe.Publish env ctx w).2 =
        artifactFinished w ++ (allTasks env ctx ctx.Config.S3).zip rs ∧
      (submitted (Pipe.Publish env ctx w).2).filter (fun c => !c.isArtifact) =
        (submitted w).filter (fun c => !c.isArtifact) ++
          ctx.Config.S3.map Closure.upload ∧
      ((∀ r ∈ rs, r = none) → (Pipe.Publish env ctx w).1 = none) ∧
      (∀ (pre post : List (Option GoError)) (e : GoError),
        rs = pre ++ some e :: post → (∀ r ∈ pre, r = none) → (∀ r ∈ post, r = none) →
        (Pipe.Publish env ctx w).1 = some e) := by
  obtain ⟨rs, hl, k1, k2, k3, k4⟩ := publish_loop env ctx ctx.Config.S3 hres
    (semerrgroup.New ctx.Parallelism) w
  have hlen : ¬ (ctx.Config.S3.length = 0) := by
    intro h
    exact hne (List.length_eq_zero.1 h)
  have hpub : Pipe.Publish env ctx w =
      (((ctx.Config.S3.foldl (fun (s : Group × World) conf =>
          s.1.Go (Closure.upload conf) (upload env ctx conf) s.2)
          (semerrgroup.New ctx.Parallelism, w)).1).Wait,
        (ctx.Config.S3.foldl (fun (s : Group × World) conf =>
          s.1.Go (Closure.upload conf) (upload env ctx conf) s.2)
          (semerrgroup.New ctx.Parallelism, w)).2) := by
    simp [Pipe.Publish, hlen]
  refine ⟨rs, hl, ?_, ?_, ?_, ?_, ?_⟩
  · rw [hpub]; exact k1
  · rw [hpub]; exact k2
  · rw [hpub]; exact k3
  · intro hall
    rw [hpub]
    show (ctx.Config.S3.foldl _ (semerrgroup.New ctx.Parallelism, w)).1.err = none
    rw [k4]
    exact foldl_orElse_none rs hall none
  · intro pre post e hrs hpre hpost
    rw [hpub]
    show (ctx.Config.S3.foldl _ (semerrgroup.New ctx.Parallelism, w)).1.err = some e
    rw [k4, hrs, List.foldl_append, List.foldl_cons]
    have h0 : (semerrgroup.New ctx.Parallelism).err = none := rfl
    rw [h0, foldl_orElse_none pre hpre none]
    simp only [Option.none_orElse]
    exact foldl_orElse_some post e

/-! ## Theorems about `filepath.Clean` and `filepath.Join` -/

/-- The model of `filepath.Clean` agrees with the Go implementation on the
sample inputs. -/
theorem clean_conformance : ∀ t ∈ cleantests, filepath.Clean t.1 = t.2 := by decide

/-- The model of `filepath.Join` agrees with the Go implementation on the
sample inputs. -/
theorem join_conformance : ∀ t ∈ jointests, filepath.Join t.1 t.2.1 = t.2.2 := by decide

theorem cleanLoop_nil (r : Bool) (fuel : Nat) (out : List Char) (dd : Nat) :
    cleanLoop r fuel [] out dd = out := by
  cases fuel <;> rfl

theorem cleanLoop_sep (r : Bool) (fuel : Nat) (t out : List Char) (dd : Nat) :
    cleanLoop r (fuel + 1) ('/' :: t) out dd = cleanLoop r fuel t out dd := by
  simp [cleanLoop, isPathSeparator]

/-- The branch of `Clean` for a real path element. -/
theorem cleanLoop_real (r : Bool) (fuel : Nat) (c : Char) (t out : List Char) (dd : Nat)
    (hc : c ≠ '/')
    (hdot : ¬ (c = '.' ∧ (t = [] ∨ t.head? = some '/')))
    (hdd : ¬ (c = '.' ∧ t.head? = some '.' ∧ (t.tail = [] ∨ t.tail.head? = some '/'))) :
    cleanLoop r (fuel + 1) (c :: t) out dd =
      cleanLoop r fuel ((c :: t).dropWhile (fun x => !isPathSeparator x))
        ((if (r && out.length != 1) || (!r && out.length != 0) then out ++ ['/'] else out) ++
          (c :: t).takeWhile (fun x => !isPathSeparator x)) dd := by
  have h1 : isPathSeparator c = false := by simp [isPathSeparator, hc]
  have h2 : (c == '.' && (t.isEmpty || isPathSeparator (t.headD '/'))) = false := by
    rw [Bool.eq_false_iff]
    intro h
    apply hdot
    simp only [Bool.and_eq_true, beq_iff_eq, Bool.or_eq_true, List.isEmpty_iff] at h
    refine ⟨h.1, ?_⟩
    rcases h.2 with h | h
    · exact Or.inl h
    · cases t with
      | nil => exact Or.inl rfl
      | cons x t => right; simpa [isPathSeparator] using h
  have h3 : (c == '.' && t.headD 'x' == '.' &&
      (t.tail.isEmpty || isPathSeparator (t.tail.headD '/'))) = false := by
    rw [Bool.eq_false_iff]
    intro h
    apply hdd
    simp only [Bool.and_eq_true, beq_iff_eq, Bool.or_eq_true, List.isEmpty_iff] at h
    obtain ⟨⟨h1, h2⟩, h3⟩ := h
    refine ⟨h1, ?_, ?_⟩
    · cases t with
      | nil => simp at h2
      | cons x t => simpa using h2
    · rcases h3 with h | h
      · exact Or.inl h
      · cases ht : t.tail with
        | nil => exact Or.inl rfl
        | cons x t2 => right; simpa [isPathSeparator, ht] using h
  rw [cleanLoop]
  simp only [h1, h2, h3]
  simp

theorem elements_unfold (p : List Char) :
    elements p = p.takeWhile (fun x => !isPathSeparator x) ::
      (match p.dropWhile (fun x => !isPathSeparator x) with
        | [] => []
        | _ :: t => elements t) := by
  induction p with
  | nil => rfl
  | cons c cs ih =>
    by_cases hc : c = '/'
    · subst hc
      simp [elements, isPathSeparator]
    · rw [elements, if_neg hc, ih]
      simp [isPathSeparator, hc]

theorem dropWhile_head_sep (p : List Char) (x : Char) (t : List Char)
    (h : p.dropWhile (fun x => !isPathSeparator x) = x :: t) : x = '/' := by
  have := List.head?_dropWhile_not (fun x => !isPathSeparator x) p
  rw [h] at this
  simpa [isPathSeparator] using this

theorem takeWhile_append_dropWhile_eq (p : List Char) :
    p.takeWhile (fun x => !isPathSeparator x) ++ p.dropWhile (fun x => !isPathSeparator x) = p :=
  List.takeWhile_append_dropWhile _ p

/-- A real first element selects the real-element branch of `Clean`. -/
theorem real_first (c : Char) (t : List Char)
    (h : realElem ((c :: t).takeWhile (fun x => !isPathSeparator x))) :
    c ≠ '/' ∧ ¬ (c = '.' ∧ (t = [] ∨ t.head? = some '/')) ∧
    ¬ (c = '.' ∧ t.head? = some '.' ∧ (t.tail = [] ∨ t.tail.head? = some '/')) := by
  obtain ⟨h0, _, h1, h2⟩ := h
  have hc : c ≠ '/' := by
    intro hc
    apply h0
    simp [hc, isPathSeparator]
  refine ⟨hc, ?_, ?_⟩
  · rintro ⟨rfl, ht⟩
    apply h1
    rcases ht with rfl | ht
    · simp [isPathSeparator]
    · cases t with
      | nil => simp at ht
      | cons x t =>
        simp only [List.head?_cons, Option.some.injEq] at ht
        subst ht
        simp [isPathSeparator]
  · rintro ⟨rfl, ht, ht2⟩
    apply h2
    cases t with
    | nil => simp at ht
    | cons x t =>
      simp only [List.head?_cons, Option.some.injEq] at ht
      subst ht
      simp only [List.tail_cons] at ht2
      rcases ht2 with rfl | ht2
      · simp [isPathSeparator]
      · cases t with
        | nil => simp at ht2
        | cons y t =>
          simp only [List.head?_cons, Option.some.injEq] at ht2
          subst ht2
          simp [isPathSeparator]

theorem elements_ne_nil (p : List Char) (h : ∀ s ∈ elements p, realElem s) : p ≠ [] := by
  rintro rfl
  exact (h [] (by simp [elements])).1 rfl

/-- From the start of a path element, `Clean` copies a relative path whose
elements are all real to the end of the buffer, after a separator if the buffer
needs one. -/
theorem cleanLoop_elements (n : Nat) :
    ∀ (r : Bool) (fuel : Nat) (p out : List Char) (dd : Nat), p.length ≤ n → p.length ≤ fuel →
      (∀ s ∈ elements p, realElem s) →
      cleanLoop r fuel p out dd =
        (if (r && out.length != 1) || (!r && out.length != 0) then out ++ ['/'] else out) ++ p := by
  induction n using Nat.strong_induction_on with
  | _ n ih =>
    intro r fuel p out dd hn hfuel hreal
    cases p with
    | nil => exact absurd rfl (elements_ne_nil [] hreal)
    | cons c t =>
      cases fuel with
      | zero => simp at hfuel
      | succ k =>
        rw [elements_unfold] at hreal
        have hs := hreal _ (List.mem_cons_self _ _)
        obtain ⟨hc, hdot, hdd⟩ := real_first c t hs
        rw [cleanLoop_real r k c t out dd hc hdot hdd]
        have hsplit := takeWhile_append_dropWhile_eq (c :: t)
        generalize hout1 : (if (r && out.length != 1) || (!r && out.length != 0) then
          out ++ ['/'] else out) = out1
        have hout1len : r = true → 1 ≤ out1.length := by
          intro hr
          subst hr
          subst hout1
          by_cases h1 : out.length = 1 <;> simp [h1]
        generalize hsdef : (c :: t).takeWhile (fun x => !isPathSeparator x) = s at hs hsplit ⊢
        have hslen : 1 ≤ s.length := List.length_pos.2 hs.1
        cases hd : (c :: t).dropWhile (fun x => !isPathSeparator x) with
        | nil =>
          rw [cleanLoop_nil]
          rw [hd, List.append_nil] at hsplit
          rw [hsplit]
        | cons x t2 =>
          have hx := dropWhile_head_sep _ _ _ hd
          subst hx
          rw [hd] at hsplit
          have hlen : (c :: t).length = s.length + (t2.length + 1) := by
            conv_lhs => rw [← hsplit]
            simp
          have hk : t2.length + 1 ≤ k := by
            have : (c :: t).length ≤ k + 1 := hfuel
            omega
          obtain ⟨k2, rfl⟩ : ∃ k2, k = k2 + 1 := ⟨k - 1, by omega⟩
          rw [cleanLoop_sep]
          have hreal2 : ∀ s ∈ elements t2, realElem s := by
            intro s hs2
            apply hreal
            rw [hd]
            exact List.mem_cons_of_mem _ hs2
          rw [ih t2.length (by omega) r k2 t2 _ dd (le_refl _) (by omega) hreal2]
          have hcond : ((r && (out1 ++ s).length != 1) || (!r && (out1 ++ s).length != 0)) =
              true := by
            cases r with
            | false =>
              have : (out1 ++ s).length ≠ 0 := by
                simp only [List.length_append]
                omega
              simpa using this
            | true =>
              have h1 := hout1len rfl
              have : (out1 ++ s).length ≠ 1 := by
                simp only [List.length_append]
                omega
              simpa using this
          rw [if_pos hcond, ← hsplit]
          simp

theorem cleanChars_cleanRelative (p : List Char) (h : ∀ s ∈ elements p, realElem s) :
    cleanChars p = p := by
  have hne : p ≠ [] := by
    rintro rfl
    exact (h [] (by simp [elements])).1 rfl
  obtain ⟨c, t, rfl⟩ := List.exists_cons_of_ne_nil hne
  have hs : realElem ((c :: t).takeWhile (fun x => !isPathSeparator x)) := by
    apply h
    rw [elements_unfold]
    exact List.mem_cons_self _ _
  have hc := (real_first c t hs).1
  have hloop := cleanLoop_elements (c :: t).length false (c :: t).length (c :: t) [] 0
    (le_refl _) (le_refl _) h
  simp only [cleanChars, List.isEmpty_cons, Bool.false_eq_true, if_false, List.headD_cons,
    isPathSeparator, beq_iff_eq, hc]
  rw [hloop]
  simp

theorem cleanLoop_dot (r : Bool) (fuel : Nat) (t out : List Char) (dd : Nat)
    (h : t = [] ∨ t.head? = some '/') :
    cleanLoop r (fuel + 1) ('.' :: t) out dd = cleanLoop r fuel t out dd := by
  have h2 : (t.isEmpty || isPathSeparator (t.headD '/')) = true := by
    rcases h with rfl | h
    · rfl
    · cases t with
      | nil => rfl
      | cons x t =>
        simp only [List.head?_cons, Option.some.injEq] at h
        subst h
        rfl
  have hsep : isPathSeparator '.' = false := by decide
  rw [cleanLoop]
  simp only [hsep, h2, beq_self_eq_true, Bool.and_true, Bool.false_eq_true, if_false, if_true]

theorem cleanLoop_dotdot (r : Bool) (fuel : Nat) (t2 out : List Char) (dd : Nat)
    (h : t2 = [] ∨ t2.head? = some '/') :
    cleanLoop r (fuel + 1) ('.' :: '.' :: t2) out dd =
      if out.length > dd then cleanLoop r fuel t2 (backtrack out dd) dd
      else if r = false then
        cleanLoop r fuel t2 ((if out.length > 0 then out ++ ['/'] else out) ++ ['.', '.'])
          ((if out.length > 0 then out ++ ['/'] else out) ++ ['.', '.']).length
      else cleanLoop r fuel t2 out dd := by
  have h2 : (t2.isEmpty || isPathSeparator (t2.headD '/')) = true := by
    rcases h with rfl | h
    · rfl
    · cases t2 with
      | nil => rfl
      | cons x t =>
        simp only [List.head?_cons, Option.some.injEq] at h
        subst h
        rfl
  have hsep : isPathSeparator '.' = false := by decide
  rw [cleanLoop]
  simp only [hsep, h2, List.isEmpty_cons, List.headD_cons, List.tail_cons, beq_self_eq_true,
    Bool.and_true, Bool.and_false, Bool.or_false, Bool.false_eq_true, if_false, if_true]
  simp

theorem EndsSep_tail (x : Char) (pre : List Char) (h : EndsSep (x :: pre)) : EndsSep pre := by
  rcases h with h | ⟨pre0, h⟩
  · simp at h
  · cases pre0 with
    | nil =>
      simp only [List.nil_append, List.cons.injEq] at h
      exact Or.inl h.2
    | cons y ys =>
      simp only [List.cons_append, List.cons.injEq] at h
      exact Or.inr ⟨ys, h.2⟩

theorem dropWhile_endsSep (pre0 P : List Char) :
    ∃ d0, (pre0 ++ ['/'] ++ P).dropWhile (fun x => !isPathSeparator x) = d0 ++ ['/'] ++ P := by
  induction pre0 with
  | nil => exact ⟨[], by simp [isPathSeparator]⟩
  | cons y ys ih =>
    by_cases hy : y = '/'
    · subst hy
      exact ⟨'/' :: ys, by simp [isPathSeparator]⟩
    · obtain ⟨d0, hd⟩ := ih
      refine ⟨d0, ?_⟩
      simp only [List.cons_append]
      rw [List.dropWhile_cons_of_pos (by simp [isPathSeparator, hy])]
      simpa using hd

theorem takeWhile_real (P : List Char) (h : realElem P) :
    P.takeWhile (fun x => !isPathSeparator x) = P ∧
    P.dropWhile (fun x => !isPathSeparator x) = [] := by
  have hall : ∀ x ∈ P, (fun x => !isPathSeparator x) x = true := by
    intro x hx
    simp [isPathSeparator, h.2.1 x hx]
  exact ⟨List.takeWhile_eq_self_iff.2 hall, List.dropWhile_eq_nil_iff.2 hall⟩

theorem RootInv_take (r : Bool) (out : List Char) (k : Nat) (h : RootInv r out) :
    RootInv r (out.take k) := by
  intro hr x hx
  apply h hr
  cases out with
  | nil => simp at hx
  | cons y ys =>
    cases k with
    | zero => simp at hx
    | succ k => simpa using hx

theorem RootInv_real (r : Bool) (out tw : List Char) (h : RootInv r out) :
    RootInv r ((if (r && out.length != 1) || (!r && out.length != 0) then out ++ ['/']
      else out) ++ tw) := by
  intro hr x hx
  subst hr
  cases out with
  | nil => simpa using hx.symm
  | cons y ys =>
    apply h rfl
    by_cases hl : ys.length = 0 <;> simpa [hl] using hx

/-- Whatever precedes it, a final part of the path that follows a separator (or
starts the path) and whose elements are all real is copied by `Clean` to the
end of the buffer, after a separator or at its start. -/
theorem cleanLoop_last (n : Nat) :
    ∀ (r : Bool) (fuel : Nat) (pre P out : List Char) (dd : Nat),
      (pre ++ P).length ≤ n → (pre ++ P).length ≤ fuel → (∀ s ∈ elements P, realElem s) →
      EndsSep pre →
      RootInv r out →
      ∃ out1, cleanLoop r fuel (pre ++ P) out dd = out1 ++ P ∧ EndsSep out1 := by
  induction n using Nat.strong_induction_on with
  | _ n ih =>
    intro r fuel pre P out dd hn hfuel hP hpre hinv
    have hPlen : 0 < P.length := List.length_pos.2 (elements_ne_nil P hP)
    obtain ⟨k, rfl⟩ : ∃ k, fuel = k + 1 := by
      have : 0 < (pre ++ P).length := by
        simp only [List.length_append]
        omega
      exact ⟨fuel - 1, by omega⟩
    cases pre with
    | nil =>
      simp only [List.nil_append] at hn hfuel ⊢
      rw [cleanLoop_elements P.length r (k + 1) P out dd (le_refl _) hfuel hP]
      refine ⟨_, rfl, ?_⟩
      by_cases hcond : ((r && out.length != 1) || (!r && out.length != 0)) = true
      · rw [if_pos hcond]
        exact Or.inr ⟨out, rfl⟩
      · rw [if_neg hcond]
        cases r with
        | false =>
          left
          simpa using hcond
        | true =>
          right
          have hl : out.length = 1 := by simpa using hcond
          obtain ⟨x, rfl⟩ := List.length_eq_one.1 hl
          have hx : x = '/' := hinv rfl x rfl
          subst hx
          exact ⟨[], rfl⟩
    | cons c pre1 =>
      have hpre1 := EndsSep_tail c pre1 hpre
      simp only [List.cons_append, List.length_cons] at hn hfuel ⊢
      have hlen : (pre1 ++ P).length < n := by omega
      have hk : (pre1 ++ P).length ≤ k := by omega
      by_cases hc : c = '/'
      · subst hc
        rw [cleanLoop_sep]
        exact ih _ hlen r k pre1 P out dd (le_refl _) hk hP hpre1 hinv
      · by_cases hdot : c = '.' ∧ ((pre1 ++ P) = [] ∨ (pre1 ++ P).head? = some '/')
        · obtain ⟨rfl, h⟩ := hdot
          rw [cleanLoop_dot r k _ out dd h]
          exact ih _ hlen r k pre1 P out dd (le_refl _) hk hP hpre1 hinv
        · by_cases hdd : c = '.' ∧ (pre1 ++ P).head? = some '.' ∧
              ((pre1 ++ P).tail = [] ∨ (pre1 ++ P).tail.head? = some '/')
          · obtain ⟨rfl, h1, h2⟩ := hdd
            cases pre1 with
            | nil =>
              exfalso
              rcases hpre with h | ⟨p0, h⟩
              · simp at h
              · have := congrArg List.getLast? h
                simp at this
            | cons y pre2 =>
              simp only [List.cons_append, List.head?_cons, Option.some.injEq] at h1
              subst h1
              have hpre2 := EndsSep_tail _ _ hpre1
              simp only [List.cons_append, List.tail_cons, List.length_cons] at h2 hlen hk ⊢
              rw [cleanLoop_dotdot r k _ out dd h2]
              split
              · exact ih _ (by omega) r k pre2 P _ dd (le_refl _) (by omega) hP hpre2
                  (RootInv_take r out _ hinv)
              · split
                · rename_i hr
                  exact ih _ (by omega) r k pre2 P _ _ (le_refl _) (by omega) hP hpre2
                    (fun hr2 => by rw [hr] at hr2; cases hr2)
                · exact ih _ (by omega) r k pre2 P _ dd (le_refl _) (by omega) hP hpre2 hinv
          · rw [cleanLoop_real r k c _ out dd hc hdot hdd]
            obtain ⟨pre0, hp0⟩ : ∃ pre0, c :: pre1 = pre0 ++ ['/'] := by
              rcases hpre with h | h
              · simp at h
              · exact h
            have hrest : c :: (pre1 ++ P) = pre0 ++ ['/'] ++ P := by
              rw [← hp0]
              simp
            obtain ⟨d0, hd0⟩ := dropWhile_endsSep pre0 P
            have hdl : (d0 ++ ['/'] ++ P).length ≤ (pre1 ++ P).length := by
              rw [← hd0, ← hrest, List.dropWhile_cons_of_pos (by simp [isPathSeparator, hc])]
              exact (List.dropWhile_sublist _).length_le
            rw [hrest, hd0]
            exact ih _ (by omega) r k (d0 ++ ['/']) P _ dd (le_refl _) (by omega) hP
              (Or.inr ⟨d0, rfl⟩) (RootInv_real r out _ hinv)

theorem cleanChars_last (pre P : List Char) (hP : ∀ s ∈ elements P, realElem s)
    (hpre : EndsSep pre) :
    ∃ out1, cleanChars (pre ++ P) = out1 ++ P ∧ EndsSep out1 := by
  have hPne : P ≠ [] := elements_ne_nil P hP
  have hPlen : 0 < P.length := List.length_pos.2 hPne
  have hne : (pre ++ P).isEmpty = false := by
    cases pre with
    | nil =>
      cases P with
      | nil => simp at hPlen
      | cons x xs => rfl
    | cons x xs => rfl
  have hfin : ∀ out1 : List Char, (out1 ++ P).length ≠ 0 := by
    intro out1
    simp only [List.length_append]
    omega
  by_cases hr : isPathSeparator ((pre ++ P).headD 'x') = true
  · cases pre with
    | nil =>
      exfalso
      obtain ⟨c, t, rfl⟩ := List.exists_cons_of_ne_nil hPne
      have hc := (real_first c t (by
        apply hP
        rw [elements_unfold]
        exact List.mem_cons_self _ _)).1
      simp [isPathSeparator, hc] at hr
    | cons c pre1 =>
      obtain ⟨out1, h1, h2⟩ := cleanLoop_last _ true (c :: pre1 ++ P).length pre1 P ['/'] 1
        (le_refl _) (by simp) hP (EndsSep_tail c pre1 hpre)
        (fun _ x hx => by simpa using hx.symm)
      refine ⟨out1, ?_, h2⟩
      simp only [cleanChars, hne, hr, Bool.false_eq_true, if_false, if_true]
      simp only [List.cons_append, List.tail_cons] at h1 ⊢
      rw [h1]
      simp [hPne]
  · obtain ⟨out1, h1, h2⟩ := cleanLoop_last _ false (pre ++ P).length pre P [] 0
      (le_refl _) (le_refl _) hP hpre (fun h => by cases h)
    refine ⟨out1, ?_, h2⟩
    simp only [cleanChars, hne, hr, Bool.false_eq_true, if_false]
    rw [h1]
    simp [hPne]

theorem lastSegment_append (out1 P : List Char) (h : EndsSep out1) :
    lastSegment (String.mk (out1 ++ P)) = lastSegment (String.mk P) := by
  simp only [lastSegment, List.reverse_append]
  congr 2
  rw [List.takeWhile_append]
  have hnil : out1.reverse.takeWhile (fun x => !isPathSeparator x) = [] := by
    rcases h with rfl | ⟨p0, rfl⟩
    · rfl
    · simp [isPathSeparator]
  rw [hnil, List.append_nil]
  split
  · rename_i hl
    exact ((List.takeWhile_sublist _).eq_of_length hl).symm
  · rfl

theorem elements_real (P : List Char) (hP : realElem P) : elements P = [P] := by
  rw [elements_unfold, (takeWhile_real P hP).1, (takeWhile_real P hP).2]

theorem lastSegment_real (P : String) (hP : realElem P.data) : lastSegment P = P := by
  have hall : ∀ x ∈ P.data.reverse, (fun x => !isPathSeparator x) x = true := by
    intro x hx
    simp [isPathSeparator, hP.2.1 x (List.mem_reverse.1 hx)]
  simp only [lastSegment]
  rw [List.takeWhile_eq_self_iff.2 hall, List.reverse_reverse]

/-- A name that is a relative path in clean form ends the joined key, after a
separator or at its start, whatever the folder is. -/
theorem join_ends_with (f P : String) (hP : cleanRelative P) :
    ∃ dir : String, filepath.Join f P = dir ++ P ∧ (dir = "" ∨ ∃ d : String, dir = d ++ "/") := by
  have hPne : P ≠ "" := by
    intro h
    apply elements_ne_nil P.data hP
    rw [h]
  have key : ∀ pre : List Char, EndsSep pre →
      ∃ dir : String, String.mk (cleanChars (pre ++ P.data)) = dir ++ P ∧
        (dir = "" ∨ ∃ d : String, dir = d ++ "/") := by
    intro pre hpre
    obtain ⟨out1, h1, h2⟩ := cleanChars_last pre P.data hP hpre
    refine ⟨String.mk out1, ?_, ?_⟩
    · rw [h1]
      rfl
    · rcases h2 with rfl | ⟨p0, rfl⟩
      · exact Or.inl rfl
      · exact Or.inr ⟨String.mk p0, rfl⟩
  by_cases hf : f = ""
  · simp only [filepath.Join, hf, bne_self_eq_false, Bool.false_eq_true, if_false,
      bne_iff_ne, ne_eq, hPne, not_false_eq_true, if_true, filepath.Clean]
    exact key [] (Or.inl rfl)
  · simp only [filepath.Join, bne_iff_ne, ne_eq, hf, not_false_eq_true, if_true,
      filepath.Clean, String.data_append]
    exact key (f.data ++ "/".data) (Or.inr ⟨f.data, rfl⟩)

/-- The final segment of a joined key is the final segment of the name, when
the name is a relative path in clean form, and the name itself when the name
is one real path element, whatever the folder is. -/
theorem lastSegment_join (f P : String) :
    (cleanRelative P → lastSegment (filepath.Join f P) = lastSegment P) ∧
    (realElem P.data → lastSegment (filepath.Join f P) = P) := by
  have h1 : cleanRelative P → lastSegment (filepath.Join f P) = lastSegment P := by
    intro hP
    obtain ⟨dir, hj, hdir⟩ := join_ends_with f P hP
    rw [hj]
    have hends : EndsSep dir.data := by
      rcases hdir with rfl | ⟨d, rfl⟩
      · exact Or.inl rfl
      · exact Or.inr ⟨d.data, rfl⟩
    exact lastSegment_append dir.data P.data hends
  refine ⟨h1, ?_⟩
  intro hP
  have hclean : cleanRelative P := by
    intro s hs
    rw [elements_real P.data hP] at hs
    simp only [List.mem_singleton] at hs
    rw [hs]
    exact hP
  rw [h1 hclean]
  exact lastSegment_real P hP

/-- A key that is already a clean relative path is the folder, a separator and
the name. -/
theorem join_cleanRelative (f n : String) (h : cleanRelative (f ++ "/" ++ n)) :
    filepath.Join f n = f ++ "/" ++ n := by
  have hf : f ≠ "" := by
    intro hf
    have h0 := h [] (by
      subst hf
      have : ("" ++ "/" ++ n).data = '/' :: n.data := by simp [String.data_append]
      rw [this]
      simp [elements])
    exact h0.1 rfl
  simp only [filepath.Join, bne_iff_ne, ne_eq, hf, not_false_eq_true, if_true, filepath.Clean]
  rw [cleanChars_cleanRelative _ h]

/-- The loop of `Clean` never runs out of fuel: once the fuel covers the
remaining input, more fuel changes nothing. -/
theorem cleanLoop_fuel (r : Bool) (fuel : Nat) :
    ∀ (rest out : List Char) (dd : Nat), rest.length ≤ fuel →
      cleanLoop r (fuel + 1) rest out dd = cleanLoop r fuel rest out dd := by
  induction fuel with
  | zero =>
    intro rest out dd h
    have : rest = [] := List.length_eq_zero.1 (by omega)
    subst this
    rfl
  | succ k ih =>
    intro rest out dd h
    cases rest with
    | nil => rfl
    | cons c t =>
      simp only [List.length_cons] at h
      have ht : t.length ≤ k := by omega
      by_cases hc : c = '/'
      · subst hc
        rw [cleanLoop_sep, cleanLoop_sep]
        exact ih t out dd ht
      · by_cases hdot : c = '.' ∧ (t = [] ∨ t.head? = some '/')
        · obtain ⟨rfl, h1⟩ := hdot
          rw [cleanLoop_dot r _ t out dd h1, cleanLoop_dot r _ t out dd h1]
          exact ih t out dd ht
        · by_cases hdd : c = '.' ∧ t.head? = some '.' ∧ (t.tail = [] ∨ t.tail.head? = some '/')
          · obtain ⟨rfl, h1, h2⟩ := hdd
            cases t with
            | nil => simp at h1
            | cons y t2 =>
              simp only [List.head?_cons, Option.some.injEq] at h1
              subst h1
              simp only [List.tail_cons, List.length_cons] at h2 ht
              rw [cleanLoop_dotdot r _ t2 out dd h2, cleanLoop_dotdot r _ t2 out dd h2]
              have ht2 : t2.length ≤ k := by omega
              split
              · exact ih t2 _ dd ht2
              · split
                · exact ih t2 _ _ ht2
                · exact ih t2 _ dd ht2
          · rw [cleanLoop_real r _ c t out dd hc hdot hdd, cleanLoop_real r _ c t out dd hc hdot hdd]
            apply ih
            rw [List.dropWhile_cons_of_pos (by simp [isPathSeparator, hc])]
            exact le_trans (List.dropWhile_sublist _).length_le ht

/-! ### The object key -/

/-- The PUT issued by one call of `uploadArtifact`. -/
theorem uploadArtifact_puts (env : Env) (g : Group) (svc : S3Client) (a : Artifact)
    (b f acl : String) (w : World) :
    puts (uploadArtifact env g svc a b f acl w).2 = puts w ++
      (if env.osOpen (w ++ [Event.go (Closure.uploadArtifact svc a b f acl)]) a.Path = none then
        [(svc, { Bucket := b, Key := filepath.Join f a.Name, Body := a.Path, ACL := acl })]
      else []) := by
  simp only [uploadArtifact, Group.Go, puts_append, body_puts]
  simp [puts]

/-- C6, as amended: the PUT of an artifact task, issued once the file is open,
carries the resolved bucket, the configured ACL and the key
`filepath.Join(folder, name)`; that key is the folder, a separator and the name
whenever this string is a relative path in clean form, as for folder
`demo/v1.0.0` and name `demo.tar.gz`; and whatever the folder, the key is the
name or ends with a separator and the name whenever the name is a relative path
in clean form. -/
theorem put_key_is_joined (env : Env) (g : Group) (svc : S3Client) (a : Artifact)
    (b f acl : String) (w : World) :
    puts (uploadArtifact env g svc a b f acl w).2 = puts w ++
      (if env.osOpen (w ++ [Event.go (Closure.uploadArtifact svc a b f acl)]) a.Path = none then
        [(svc, { Bucket := b, Key := filepath.Join f a.Name, Body := a.Path, ACL := acl })]
      else []) ∧
    (cleanRelative (f ++ "/" ++ a.Name) → filepath.Join f a.Name = f ++ "/" ++ a.Name) ∧
    (cleanRelative a.Name → ∃ dir : String,
      filepath.Join f a.Name = dir ++ a.Name ∧ (dir = "" ∨ ∃ d : String, dir = d ++ "/")) ∧
    filepath.Join "demo/v1.0.0" "demo.tar.gz" = "demo/v1.0.0/demo.tar.gz" :=
  ⟨uploadArtifact_puts env g svc a b f acl w, join_cleanRelative f a.Name,
   join_ends_with f a.Name, by decide⟩

/-- C6 at a concrete input: the PUT is issued and the key is the folder, a
separator and the name. -/
theorem put_key_is_joined_witness :
    cleanRelative ("demo/v1.0.0" ++ "/" ++ "demo.tar.gz") ∧
    puts (uploadArtifact demoEnv (semerrgroup.New 4) (newSvc demoConf)
      { Name := "demo.tar.gz", Path := "dist/demo.tar.gz" }
      "releases" "demo/v1.0.0" "private" []).2 =
      [(newSvc demoConf,
        { Bucket := "releases", Key := "demo/v1.0.0/demo.tar.gz", Body := "dist/demo.tar.gz",
          ACL := "private" })] ∧
    filepath.Join "demo/v1.0.0" "demo.tar.gz" = "demo/v1.0.0" ++ "/" ++ "demo.tar.gz" :=
  ⟨by decide,
   ((put_key_is_joined demoEnv (semerrgroup.New 4) (newSvc demoConf)
      { Name := "demo.tar.gz", Path := "dist/demo.tar.gz" }
      "releases" "demo/v1.0.0" "private" []).1).trans (by decide),
   (put_key_is_joined demoEnv (semerrgroup.New 4) (newSvc demoConf)
      { Name := "demo.tar.gz", Path := "dist/demo.tar.gz" }
      "releases" "demo/v1.0.0" "private" []).2.1 (by decide)⟩

/-- C6 fails as stated: with the resolved folder `files/` the key of
`demo.tar.gz` is `files/demo.tar.gz`, not `files//demo.tar.gz`; and with an
empty resolved folder the key is `demo.tar.gz`, not `/demo.tar.gz`. -/
theorem put_key_not_plain_concatenation :
    puts (uploadArtifact demoEnv (semerrgroup.New 4) (newSvc demoFileConf)
      { Name := "demo.tar.gz", Path := "dist/demo.tar.gz" }
      "releases" "files/" "private" []).2 =
      [(newSvc demoFileConf,
        { Bucket := "releases", Key := "files/demo.tar.gz", Body := "dist/demo.tar.gz", ACL := "private" })] ∧
    "files/demo.tar.gz" ≠ "files/" ++ "/" ++ "demo.tar.gz" ∧
    filepath.Join "" "demo.tar.gz" = "demo.tar.gz" ∧
    "demo.tar.gz" ≠ "" ++ "/" ++ "demo.tar.gz" := by
  decide

/-- C7, as amended: for a destination with an explicit path and no name
override whose templates resolve, the one PUT carries the key
`filepath.Join(folder, path)`, the path itself standing for the name; whatever
the folder, that key is the path or ends with a separator and the path whenever
the path is a relative path in clean form, and the final segment of the key is
the path whenever the path is a single real path element. -/
theorem explicit_path_key (env : Env) (ctx : Context) (conf : S3) (w : World) (b f : String)
    (hp : conf.Path ≠ "") (hn : conf.Name = "")
    (hb : env.tmplApply ctx conf.Bucket = Except.ok b)
    (hf : env.tmplApply ctx conf.Folder = Except.ok f) :
    puts (upload env ctx conf w).2 = puts w ++
      (if env.osOpen (w ++ [Event.go (Closure.uploadArtifact (newSvc conf)
          { Name := conf.Path, Path := conf.Path } b f conf.ACL)]) conf.Path = none then
        [(newSvc conf,
          { Bucket := b, Key := filepath.Join f conf.Path, Body := conf.Path, ACL := conf.ACL })]
      else []) ∧
    (cleanRelative conf.Path → ∃ dir : String,
      filepath.Join f conf.Path = dir ++ conf.Path ∧ (dir = "" ∨ ∃ d : String, dir = d ++ "/")) ∧
    (realElem conf.Path.data → lastSegment (filepath.Join f conf.Path) = conf.Path) := by
  refine ⟨?_, join_ends_with f conf.Path, (lastSegment_join f conf.Path).2⟩
  have h := uploadArtifact_puts env (semerrgroup.New ctx.Parallelism) (newSvc conf)
    { Name := conf.Path, Path := conf.Path } b f conf.ACL w
  simp only [upload, hb, hf]
  simpa [hp, hn] using h

/-- C7 at a concrete input: the path `checksums.txt` under the folder `files/`,
and the path `dist/app.tar.gz` under the folder `files`. -/
theorem explicit_path_key_witness :
    demoFileConf.Path ≠ "" ∧ demoFileConf.Name = "" ∧ realElem demoFileConf.Path.data ∧
    cleanRelative demoPathConf.Path ∧
    puts (upload demoEnv demoCtx demoFileConf []).2 =
      [(newSvc demoFileConf,
        { Bucket := "releases", Key := "files/checksums.txt", Body := "checksums.txt",
          ACL := "private" })] ∧
    lastSegment (filepath.Join "files/" demoFileConf.Path) = demoFileConf.Path ∧
    (∃ dir : String, filepath.Join "files" demoPathConf.Path = dir ++ demoPathConf.Path ∧
      (dir = "" ∨ ∃ d : String, dir = d ++ "/")) :=
  ⟨by decide, by decide, by decide, by decide,
   ((explicit_path_key demoEnv demoCtx demoFileConf [] "releases" "files/"
      (by decide) (by decide) rfl rfl).1).trans (by decide),
   (explicit_path_key demoEnv demoCtx demoFileConf [] "releases" "files/"
      (by decide) (by decide) rfl rfl).2.2 (by decide),
   (explicit_path_key demoEnv demoCtx demoPathConf [] "releases" "files"
      (by decide) (by decide) rfl rfl).2.1 (by decide)⟩

/-- C7 fails as stated: for the explicit path `dist/app.tar.gz` without name
override, under the folder `files`, the key is `files/dist/app.tar.gz`, whose
final segment is `app.tar.gz` and not the path. -/
theorem explicit_path_last_segment_differs :
    demoPathConf.Path ≠ "" ∧ demoPathConf.Name = "" ∧
    puts (upload demoEnv demoCtx demoPathConf []).2 =
      [(newSvc demoPathConf,
        { Bucket := "releases", Key := "files/dist/app.tar.gz", Body := "dist/app.tar.gz", ACL := "private" })] ∧
    lastSegment "files/dist/app.tar.gz" = "app.tar.gz" ∧
    lastSegment "files/dist/app.tar.gz" ≠ demoPathConf.Path := by
  decide

/-! ## The theorems at concrete inputs -/

/-- C8 at a concrete input: a destination with only a bucket gets the three
defaults. -/
theorem default_fills_empty_fields_witness :
    (Pipe.Default demoRawCtx).1 = none ∧
    ∃ s1, (Pipe.Default demoRawCtx).2.Config.S3[0]? = some s1 ∧
      s1.Bucket ≠ "" ∧
      (("" : String) = "" → s1.Folder = defaultFolder) ∧
      (("" : String) = "" → s1.Region = "us-east-1") ∧
      (("" : String) = "" → s1.ACL = "private") :=
  ⟨(default_fills_empty_fields demoRawCtx).1,
   (default_fills_empty_fields demoRawCtx).2.2 0 { Bucket := "releases" } rfl (by decide)⟩

/-- C10 at a concrete input: the destination without bucket stays as it is and
the destination that is already set keeps its folder, region and ACL. -/
theorem default_frame_witness :
    (Pipe.Default demoRawCtx).2.Config.S3.length = 3 ∧
    (∃ s1, (Pipe.Default demoRawCtx).2.Config.S3[1]? = some s1 ∧ s1 = { Bucket := "" }) ∧
    (∃ s1, (Pipe.Default demoRawCtx).2.Config.S3[2]? = some s1 ∧
      s1.Folder = "f" ∧ s1.Region = "eu-west-1" ∧ s1.ACL = "public-read" ∧ s1.Bucket = "b") := by
  refine ⟨(default_frame demoRawCtx).1, ?_, ?_⟩
  · obtain ⟨s1, h1, h2, _⟩ := (default_frame demoRawCtx).2.2.2 1 {} rfl
    exact ⟨s1, h1, h2 rfl⟩
  · obtain ⟨s1, h1, _, h3, h4, h5, h6, _⟩ := (default_frame demoRawCtx).2.2.2 2
      { Bucket := "b", Folder := "f", Region := "eu-west-1", ACL := "public-read" } rfl
    exact ⟨s1, h1, h3 (by decide), h4 (by decide), h5 (by decide), h6⟩

/-- C1 at a concrete input: a context without destination. -/
theorem publish_skips_without_destinations_witness :
    demoEmptyCtx.Config.S3 = [] ∧
    (Pipe.Publish demoEnv demoEmptyCtx []).1 =
      some (GoError.ErrSkip "s3 section is not configured") ∧
    (Pipe.Publish demoEnv demoEmptyCtx []).2 = [] :=
  ⟨rfl, (publish_skips_without_destinations demoEnv demoEmptyCtx [] rfl).1,
   (publish_skips_without_destinations demoEnv demoEmptyCtx [] rfl).2.2.1⟩

/-- C5 at a concrete input: a destination whose bucket template (and folder
template) names an unknown field. -/
theorem upload_aborts_on_template_error_witness :
    demoEnv.tmplApply demoCtx demoBadConf.Bucket =
      Except.error (GoError.other "template: no field Nope") ∧
    upload demoEnv demoCtx demoBadConf [] =
      (some (GoError.other "template: no field Nope"), []) :=
  ⟨rfl, (upload_aborts_on_template_error demoEnv demoCtx demoBadConf []).1 _ rfl⟩

/-- C3 at a concrete input: of five archives and two artifacts of another type,
exactly the five archives are submitted. -/
theorem upload_submits_filtered_artifacts_witness :
    demoConf.Path = "" ∧ demoCtx.Artifacts.items.length = 7 ∧
    (submitted (upload demoEnv demoCtx demoConf []).2).length = 5 ∧
    opened (upload demoEnv demoCtx demoConf []).2 =
      ["dist/a1.tar.gz", "dist/a2.tar.gz", "dist/a3.tar.gz", "dist/a4.tar.gz",
        "dist/a5.tar.gz"] := by
  have h := upload_submits_filtered_artifacts demoEnv demoCtx demoConf [] "releases"
    "demo/v1.0.0" rfl rfl rfl
  refine ⟨rfl, rfl, ?_, ?_⟩
  · rw [h.1]
    decide
  · rw [h.2]
    decide

/-- C4 at a concrete input: the destination with the explicit path
`dist/missing.sig` and the name `app.sig`, over a set of seven artifacts. -/
theorem upload_explicit_path_single_task_witness :
    demoMissingConf.Path ≠ "" ∧
    submitted (upload demoEnv demoCtx demoMissingConf []).2 =
      [Closure.uploadArtifact (newSvc demoMissingConf)
        { Name := "app.sig", Path := "dist/missing.sig" } "releases" "sigs" "private"] ∧
    opened (upload demoEnv demoCtx demoMissingConf []).2 = ["dist/missing.sig"] := by
  have h := upload_explicit_path_single_task demoEnv demoCtx demoMissingConf [] "releases"
    "sigs" (by decide) rfl rfl
  exact ⟨by decide, h.1.trans (by decide), h.2.trans (by decide)⟩

/-- C2 at a concrete input: three destinations with seven artifact tasks, of
which exactly the sixth fails; `Publish` returns its error and all seven tasks
complete. -/
theorem publish_join_result_witness :
    demoCtx.Config.S3 ≠ [] ∧
    (∃ rs : List (Option GoError),
      rs.length = (allTasks demoEnv demoCtx demoCtx.Config.S3).length ∧
      artifactSubmitted (Pipe.Publish demoEnv demoCtx []).2 =
        artifactSubmitted [] ++ allTasks demoEnv demoCtx demoCtx.Config.S3 ∧
      artifactFinished (Pipe.Publish demoEnv demoCtx []).2 =
        artifactFinished [] ++ (allTasks demoEnv demoCtx demoCtx.Config.S3).zip rs ∧
      (submitted (Pipe.Publish demoEnv demoCtx []).2).filter (fun c => !c.isArtifact) =
        (submitted []).filter (fun c => !c.isArtifact) ++
          demoCtx.Config.S3.map Closure.upload ∧
      ((∀ r ∈ rs, r = none) → (Pipe.Publish demoEnv demoCtx []).1 = none) ∧
      (∀ (pre post : List (Option GoError)) (e : GoError),
        rs = pre ++ some e :: post → (∀ r ∈ pre, r = none) → (∀ r ∈ post, r = none) →
        (Pipe.Publish demoEnv demoCtx []).1 = some e)) ∧
    (allTasks demoEnv demoCtx demoCtx.Config.S3).length = 7 ∧
    (artifactFinished (Pipe.Publish demoEnv demoCtx []).2).map (fun p => p.2) =
      [none, none, none, none, none,
        some (GoError.other "open dist/missing.sig: no such file"), none] ∧
    (Pipe.Publish demoEnv demoCtx []).1 =
      some (GoError.other "open dist/missing.sig: no such file") := by
  refine ⟨by decide, publish_join_result demoEnv demoCtx [] (by decide) ?_, by decide,
    by decide, by decide⟩
  intro conf hc
  simp only [demoCtx, List.mem_cons, List.mem_singleton, List.not_mem_nil, or_false] at hc
  rcases hc with rfl | rfl | rfl
  · exact ⟨_, _, rfl, rfl⟩
  · exact ⟨_, _, rfl, rfl⟩
  · exact ⟨_, _, rfl, rfl⟩

end S3Pipe
